import Mathlib

/-!
Shallow embedding of the UUID v4 generation engine from
`include/uuids/uuidv4.hpp` (namespace `uuids::v1`).

Bytes are modelled as `Nat` values below 256, byte buffers as `List Nat`
(the C++ `std::array<std::uint8_t, 16>`).  The target architecture of the
hardware path is x86-64, which is little-endian, so `std::memcpy` of a
64-bit word into the byte buffer is modelled by little-endian byte
extraction.  The hardware instructions RDRAND / RDSEED / AESENC are CPU
primitives outside the repository; the environment record `HwEnv` carries
the capability flags and the values the instructions would produce for
one generator call, and the AESENC whitening round as an abstract
16-byte-to-16-byte function.
-/

namespace Uuids

/-- Byte `i` (little-endian) of the in-memory representation of the 64-bit
word `v`, as written by `std::memcpy(dst, &v, 8)` on x86-64. -/
def byteOfU64 (v i : Nat) : Nat := v / 2 ^ (8 * i) % 256

/-- The 8 bytes of a 64-bit word in memory order (little-endian). -/
def bytesOfU64 (v : Nat) : List Nat := (List.range 8).map (byteOfU64 v)

/-- The 16 raw bytes obtained from a pair of 64-bit hardware draws:
`memcpy(span, &v1, 8); memcpy(span + 8, &v2, 8)`. -/
def pairBytes (p : Nat × Nat) : List Nat := bytesOfU64 p.1 ++ bytesOfU64 p.2

/-- Finalization stamping shared by both generation paths:
`data[6] = (data[6] & 0x0F) | 0x40; data[8] = (data[8] & 0x3F) | 0x80`. -/
def stampVV (b : List Nat) : List Nat :=
  let b1 := b.set 6 (((b.getD 6 0) &&& 0x0F) ||| 0x40)
  b1.set 8 (((b1.getD 8 0) &&& 0x3F) ||| 0x80)

/-- The version/variant bit-layout invariant of §3 of the spec:
`(byte[6] & 0xF0) == 0x40` and `(byte[8] & 0xC0) == 0x80`. -/
def versionVariantOK (b : List Nat) : Prop :=
  ((b.getD 6 0) &&& 0xF0) = 0x40 ∧ ((b.getD 8 0) &&& 0xC0) = 0x80

instance (b : List Nat) : Decidable (versionVariantOK b) := by
  unfold versionVariantOK; infer_instance

/-- Environment a single `generate_hw` call runs in: the cached CPU capability
flags, the 64-bit word pairs that RDRAND resp. RDSEED would deliver on this
call, and the AESENC round (with the fixed key built from `0x1b873593` and
`0x9e3779b9`) as an abstract function on 16-byte buffers. -/
structure HwEnv where
  rdrandSupported : Bool
  rdseedSupported : Bool
  aesMix : Bool
  rdrandPair : Nat × Nat
  rdseedPair : Nat × Nat
  aesenc : List Nat → List Nat

/-- Well-formedness of the modelled AESENC instruction: `_mm_aesenc_si128`
maps 128 bits to 128 bits, i.e. 16 bytes to 16 bytes. -/
def hwEnvWF (env : HwEnv) : Prop :=
  ∀ l : List Nat, l.length = 16 → (env.aesenc l).length = 16

/-- The state of one `optimized_generator` instance: the software engine
state `rng_` and the construction-time decision `use_hw_rng_`. -/
structure GenState (σ : Type) where
  rng : σ
  useHw : Bool

/-- `setup_hw_rng()`: hardware is preferred iff RDRAND or RDSEED is present. -/
def setup_hw_rng (env : HwEnv) : Bool := env.rdrandSupported || env.rdseedSupported

/-- The seeded constructor `optimized_generator(seed)`: stores the seeded
engine state and the cached hardware decision. -/
def mkGenerator (env : HwEnv) {σ : Type} (seedState : σ) : GenState σ :=
  ⟨seedState, setup_hw_rng env⟩

/-- `generate_sw` for an engine whose `result_type` is 8 bytes wide (the
`if constexpr (sizeof == 8)` branch): two draws, each copied byte-for-byte
into half of the buffer, then finalization. -/
def generate_sw {σ : Type} (next : σ → Nat × σ) (g : GenState σ) :
    List Nat × GenState σ :=
  let r1 := next g.rng
  let r2 := next r1.2
  (stampVV (bytesOfU64 r1.1 ++ bytesOfU64 r2.1), { g with rng := r2.2 })

/-- A 64-bit hardware draw pair is treated as failed exactly when both words
are zero (the `v1 != 0 || v2 != 0` test, negated). -/
def pairFailed (p : Nat × Nat) : Prop := p.1 = 0 ∧ p.2 = 0

instance (p : Nat × Nat) : Decidable (pairFailed p) := by
  unfold pairFailed; infer_instance

/-- The raw 16 bytes the hardware path obtains, if any: an RDRAND pair when
RDRAND is supported and the pair is not all-zero, else an RDSEED pair when
RDSEED is supported and that pair is not all-zero, else nothing
(`used_hw_rng` stays false). -/
def hwRawDraw (env : HwEnv) : Option (List Nat) :=
  if env.rdrandSupported = true ∧ ¬ pairFailed env.rdrandPair then
    some (pairBytes env.rdrandPair)
  else if env.rdseedSupported = true ∧ ¬ pairFailed env.rdseedPair then
    some (pairBytes env.rdseedPair)
  else none

/-- The optional AES whitening round applied to a successful hardware draw. -/
def mixHw (env : HwEnv) (raw : List Nat) : List Nat :=
  if env.aesMix then env.aesenc raw else raw

/-- `generate_hw`: use the hardware draw when one succeeded (whitened, then
finalized; the engine state is untouched), otherwise fall back to
`generate_sw`. -/
def generate_hw (env : HwEnv) {σ : Type} (next : σ → Nat × σ) (g : GenState σ) :
    List Nat × GenState σ :=
  match hwRawDraw env with
  | some raw => (stampVV (mixHw env raw), g)
  | none => generate_sw next g

/-- `operator()`: dispatch on the cached `use_hw_rng_` decision. -/
def generatorCall (env : HwEnv) {σ : Type} (next : σ → Nat × σ)
    (g : GenState σ) : List Nat × GenState σ :=
  if g.useHw then generate_hw env next g else generate_sw next g

/-- The engine-state effect of one software-path call for an 8-byte engine:
the two draws of `generate_sw` applied in order. -/
def swAdvance {σ : Type} (next : σ → Nat × σ) (s : σ) : σ :=
  (next (next s).2).2

/-- Iterated calls: the list of the first `n` values produced by one
generator instance. -/
def runGen (env : HwEnv) {σ : Type} (next : σ → Nat × σ) (g : GenState σ) :
    Nat → List (List Nat)
  | 0 => []
  | n + 1 =>
    let r := generatorCall env next g
    r.1 :: runGen env next r.2 n

/-- The index sequence of the generic-width fill loop
`for (i = 0; i < 16; i += w)`, with explicit fuel: `none` means the fuel ran
out before the loop condition `i < 16` failed. -/
def swFillIdx (w : Nat) : Nat → Nat → Option (List Nat)
  | i, 0 => if 16 ≤ i then some [] else none
  | i, fuel + 1 =>
    if i < 16 then (swFillIdx w (i + w) fuel).map (fun l => i :: l) else some []

/-- The loop offsets actually executed for width `w` (fuel 16 suffices for
every width ≥ 1: the index grows by at least 1 per iteration). -/
def swOffsetList (w : Nat) : List Nat := (swFillIdx w 0 16).getD []

/-- All byte positions written by the generic-width loop: each iteration at
offset `i` executes `memcpy(data + i, &value, w)`, writing positions
`i, i + 1, …, i + w - 1`.  Positions ≥ 16 are past the end of the 16-byte
buffer. -/
def swWritePositions (w : Nat) : List Nat :=
  (swOffsetList w).flatMap (fun i => (List.range w).map (fun j => i + j))

/-- Number of engine draws `generate_sw` makes: the 8-byte branch draws
exactly twice; any other width draws once per loop iteration. -/
def swDrawCount (w : Nat) : Nat :=
  if w = 8 then 2 else (swOffsetList w).length

/-- The 16-byte buffer after the generic-width loop, restricted to the
in-bounds writes: position `p` was written by draw number `p / w` at byte
offset `p % w` within that draw. -/
def fillGeneric (w : Nat) (draw : Nat → Nat) : List Nat :=
  (List.range 16).map (fun p => byteOfU64 (draw (p / w)) (p % w))

/-- `generate_sw` for a generic engine width `w ≠ 8` (in-bounds effect):
fill loop then finalization. -/
def generate_sw_generic (w : Nat) (draw : Nat → Nat) : List Nat :=
  stampVV (fillGeneric w draw)

/-- A conforming C++ entropy engine has `sizeof(result_type) ≥ 1`: every
C++ object type has size at least one byte, so the `RandomNumberEngine`
concept admits no zero-width engine at generator construction time. -/
def engineWidthOK (w : Nat) : Prop := 1 ≤ w

/-- The lowercase hex digit table `"0123456789abcdef"`. -/
def hexDigits : List Char := "0123456789abcdef".toList

/-- `hex[n]` for a nibble `n`. -/
def hexChar (n : Nat) : Char := hexDigits.getD n '0'

/-- The two hex characters emitted for one byte:
`hex[b >> 4]` then `hex[b & 0x0F]`. -/
def hexPair (b : Nat) : List Char := [hexChar (b >>> 4), hexChar (b &&& 0x0F)]

/-- The rendering loop of `basic_uuid::str()`: before bytes 4, 6, 8 and 10 a
hyphen is emitted, then two hex digits per byte.  `j` is the byte index. -/
def strAux : List Nat → Nat → List Char
  | [], _ => []
  | b :: rest, j =>
    (if j = 4 ∨ j = 6 ∨ j = 8 ∨ j = 10 then ['-'] else []) ++
      (hexChar (b >>> 4) :: hexChar (b &&& 0x0F) :: strAux rest (j + 1))

/-- `basic_uuid::str()` as a character list. -/
def uuidStr (b : List Nat) : List Char := strAux b 0

/-- Modelled from the spec: the unsigned lexicographic three-way comparison
over the 16 bytes that §3 prescribes as the UUID value's total order.  The
source does not provide it: `basic_uuid::operator<=>` (line 300) is
defaulted with `auto` return type over the single member
`detail::uuid_bytes data_`, and `uuid_bytes` declares no `<=>`, `==` or
`<`, so under C++20 the defaulted `operator<=>` — and with it the
implicitly declared defaulted `operator==` — is defined as deleted, making
`<`, `==`, `>` on UUID values ill-formed (the example programs work around
the missing `==` with a hand-written `UuidEqual` functor over `bytes()`).
This definition follows the spec's words instead, for comparison with the
intended semantics. -/
def uuidCmp : List Nat → List Nat → Ordering
  | [], [] => .eq
  | [], _ :: _ => .lt
  | _ :: _, [] => .gt
  | a :: as, b :: bs =>
    if a < b then .lt else if b < a then .gt else uuidCmp as bs

/-- `std::copy(bytes.begin(), bytes.end(), data.begin())` in the
`uuid_bytes` span constructor: element-by-element copy. -/
def copySpan : List Nat → List Nat
  | [] => []
  | x :: xs => x :: copySpan xs

/-- The `basic_uuid` value type: 16 stored bytes. -/
structure UuidValue where
  bytes : List Nat

/-- `basic_uuid(std::span<const std::uint8_t, 16>)`: copies the caller's
bytes into the value, with no validation. -/
def uuidOfSpan (b : List Nat) : UuidValue := ⟨copySpan b⟩

/-- `basic_uuid()` (defaulted): `uuid_bytes()` value-initializes the array,
so all 16 bytes are zero. -/
def defaultUuid : UuidValue := ⟨List.replicate 16 0⟩

/-! ### The default software engine `std::mt19937_64`

`optimized_generator` defaults its `PRNG` parameter to `std::mt19937_64`,
the standard 64-bit Mersenne Twister
`mersenne_twister_engine<uint64_t, 64, 312, 156, 31, 0xb5026f5aa96619e9,
29, 0x5555555555555555, 17, 0x71d67fffeda60000, 37, 0xfff7eee000000000,
43, 6364136223846793005>`.  It is standard-library code, not repository
code; it is embedded here from its standard definition so that the
seed-42 scenario of §8 of the spec can be evaluated. -/

/-- 2^64, the word modulus of `std::mt19937_64`. -/
def mtMod : Nat := 2 ^ 64

/-- One step of the seeding recurrence:
`x_i = (6364136223846793005 * (x_{i-1} xor (x_{i-1} >> 62)) + i) mod 2^64`. -/
def mtInitStep (x i : Nat) : Nat :=
  (6364136223846793005 * (x ^^^ (x >>> 62)) + i) % mtMod

/-- The seeded state words, oldest first: `x` is the word at index `i`, and
`fuel` more words follow it. -/
def mtInitAux (x i fuel : Nat) : List Nat :=
  match fuel with
  | 0 => [x]
  | f + 1 => x :: mtInitAux (mtInitStep x (i + 1)) (i + 1) f

/-- The 312 seeded state words `x_0 … x_311` of `std::mt19937_64`. -/
def mtInitList312 (seed : Nat) : List Nat := mtInitAux (seed % mtMod) 0 311

/-- The twist of one recurrence step: from `x_{k}` and `x_{k+1}` form the
31/33-bit concatenation, shift right, and conditionally fold in the
constant `0xb5026f5aa96619e9`. -/
def mtTwistVal (x0 x1 : Nat) : Nat :=
  let x := (x0 &&& 0xFFFFFFFF80000000) ||| (x1 &&& 0x7FFFFFFF)
  (x >>> 1) ^^^ (if x % 2 = 1 then 0xB5026F5AA96619E9 else 0)

/-- The next state word from a 312-word sliding window
`[x_{k}, …, x_{k+311}]`: `x_{k+312} = x_{k+156} xor twist(x_k, x_{k+1})`. -/
def mtNextWord (window : List Nat) : Nat :=
  (window.getD 156 0) ^^^ mtTwistVal (window.getD 0 0) (window.getD 1 0)

/-- Slide the window one step forward. -/
def mtStep (window : List Nat) : List Nat :=
  window.drop 1 ++ [mtNextWord window]

/-- The output tempering of `std::mt19937_64`. -/
def mtTemper (x : Nat) : Nat :=
  let y1 := x ^^^ ((x >>> 29) &&& 0x5555555555555555)
  let y2 := y1 ^^^ ((y1 <<< 17) &&& 0x71D67FFFEDA60000)
  let y3 := y2 ^^^ ((y2 <<< 37) &&& 0xFFF7EEE000000000)
  y3 ^^^ (y3 >>> 43)

/-- Engine state after seeding: the initial 312-word window. -/
def mtEngineInit (seed : Nat) : List Nat := mtInitList312 seed

/-- One engine call `rng_()`: advance the window, temper the newest word. -/
def mtNext (w : List Nat) : Nat × List Nat :=
  let w2 := mtStep w
  (mtTemper (w2.getD 311 0), w2)

/-- An environment in which neither RDRAND nor RDSEED is present, so the
construction-time decision disables the hardware path and every call takes
the software path. -/
def noHwEnv : HwEnv := ⟨false, false, false, (0, 0), (0, 0), id⟩

/-- First façade instance of the determinism scenario: a generator
constructed from an explicit seed with hardware disabled. -/
def mtFacadeA (seed : Nat) : GenState (List Nat) :=
  mkGenerator noHwEnv (mtEngineInit seed)

/-- Second, separately constructed façade instance with the same
constructor body. -/
def mtFacadeB (seed : Nat) : GenState (List Nat) :=
  mkGenerator noHwEnv (mtEngineInit seed)

/-- A concrete hardware environment: RDRAND present and delivering the
pair (1, 2), RDSEED absent, no AES whitening. -/
def sampleEnv : HwEnv := ⟨true, false, false, (1, 2), (0, 0), id⟩

/-- A concrete (degenerate) conforming engine over the unit state: every
draw yields 5. -/
def sampleNext : Unit → Nat × Unit := fun s => (5, s)

/-- A concrete generator state preferring the hardware path. -/
def sampleGen : GenState Unit := ⟨(), true⟩

/-! ## Helper lemmas -/

theorem or64_mask : ∀ z, z < 16 → ((z ||| 64) &&& 240) = 64 := by decide

theorem or128_mask : ∀ z, z < 64 → ((z ||| 128) &&& 192) = 128 := by decide

theorem and15_lt (x : Nat) : x &&& 15 < 16 :=
  Nat.lt_of_le_of_lt Nat.and_le_right (by norm_num)

theorem and63_lt (x : Nat) : x &&& 63 < 64 :=
  Nat.lt_of_le_of_lt Nat.and_le_right (by norm_num)

theorem stamp6_mask (x : Nat) : (((x &&& 15) ||| 64) &&& 240) = 64 :=
  or64_mask (x &&& 15) (and15_lt x)

theorem stamp8_mask (x : Nat) : (((x &&& 63) ||| 128) &&& 192) = 128 :=
  or128_mask (x &&& 63) (and63_lt x)

theorem bytesOfU64_length (v : Nat) : (bytesOfU64 v).length = 8 := by
  simp [bytesOfU64]

theorem pairBytes_length (p : Nat × Nat) : (pairBytes p).length = 16 := by
  simp [pairBytes, bytesOfU64]

theorem fillGeneric_length (w : Nat) (draw : Nat → Nat) :
    (fillGeneric w draw).length = 16 := by
  simp [fillGeneric]

/-- Any 16-element list of naturals is a 16-element literal. -/
theorem exists16 (b : List Nat) (h : b.length = 16) :
    ∃ a0 a1 a2 a3 a4 a5 a6 a7 a8 a9 a10 a11 a12 a13 a14 a15 : Nat,
      b = [a0, a1, a2, a3, a4, a5, a6, a7, a8, a9, a10, a11, a12, a13, a14,
        a15] := by
  rcases b with _ | ⟨a0, _ | ⟨a1, _ | ⟨a2, _ | ⟨a3, _ | ⟨a4, _ | ⟨a5, _ | ⟨a6, _ | ⟨a7, _ | ⟨a8, _ | ⟨a9, _ | ⟨a10, _ | ⟨a11, _ | ⟨a12, _ | ⟨a13, _ | ⟨a14, _ | ⟨a15, _ | ⟨a16, rest⟩⟩⟩⟩⟩⟩⟩⟩⟩⟩⟩⟩⟩⟩⟩⟩⟩ <;>
    first
      | exact ⟨a0, a1, a2, a3, a4, a5, a6, a7, a8, a9, a10, a11, a12, a13, a14, a15, rfl⟩
      | (simp at h; try omega)

theorem stampVV_getD (b : List Nat) (h : b.length = 16) :
    (stampVV b).getD 6 0 = ((b.getD 6 0) &&& 15) ||| 64 ∧
    (stampVV b).getD 8 0 = ((b.getD 8 0) &&& 63) ||| 128 ∧
    (stampVV b).length = 16 := by
  obtain ⟨a0, a1, a2, a3, a4, a5, a6, a7, a8, a9, a10, a11, a12, a13, a14,
    a15, rfl⟩ := exists16 b h
  exact ⟨rfl, rfl, rfl⟩

theorem stampVV_ok (b : List Nat) (h : b.length = 16) :
    versionVariantOK (stampVV b) := by
  obtain ⟨h6, h8, -⟩ := stampVV_getD b h
  exact ⟨by rw [h6]; exact stamp6_mask _, by rw [h8]; exact stamp8_mask _⟩

theorem generate_sw_fst_length {σ : Type} (next : σ → Nat × σ)
    (g : GenState σ) : (generate_sw next g).1.length = 16 := by
  have : (bytesOfU64 (next g.rng).1 ++ bytesOfU64 (next (next g.rng).2).1).length
      = 16 := by
    simp [bytesOfU64]
  exact (stampVV_getD _ this).2.2

theorem generate_sw_ok {σ : Type} (next : σ → Nat × σ) (g : GenState σ) :
    versionVariantOK (generate_sw next g).1 := by
  apply stampVV_ok
  simp [bytesOfU64]

theorem hwRawDraw_length (env : HwEnv) (raw : List Nat)
    (h : hwRawDraw env = some raw) : raw.length = 16 := by
  unfold hwRawDraw at h
  split_ifs at h
  · injection h with h2; rw [← h2]; exact pairBytes_length _
  · injection h with h2; rw [← h2]; exact pairBytes_length _

theorem mixHw_length (env : HwEnv) (hwf : hwEnvWF env) (raw : List Nat)
    (h : raw.length = 16) : (mixHw env raw).length = 16 := by
  unfold mixHw
  split_ifs
  · exact hwf raw h
  · exact h

theorem generate_hw_ok (env : HwEnv) (hwf : hwEnvWF env) {σ : Type}
    (next : σ → Nat × σ) (g : GenState σ) :
    versionVariantOK (generate_hw env next g).1 := by
  unfold generate_hw
  cases hr : hwRawDraw env with
  | some raw =>
    exact stampVV_ok _ (mixHw_length env hwf raw (hwRawDraw_length env raw hr))
  | none => exact generate_sw_ok next g

/-! ## Claim theorems -/

/-- C1: every value produced by `operator()` — through the hardware path or
the software path, for any conforming engine, any engine state and any
hardware environment — and every value of the generic-width software fill
satisfies `(byte[6] & 0xF0) == 0x40` and `(byte[8] & 0xC0) == 0x80`,
because finalization stamps those bits unconditionally after all entropy
and mixing steps. -/
theorem c1_version_variant_bits (env : HwEnv) (hwf : hwEnvWF env)
    {σ : Type} (next : σ → Nat × σ) (g : GenState σ) (w : Nat)
    (draw : Nat → Nat) :
    versionVariantOK (generatorCall env next g).1 ∧
    versionVariantOK (generate_sw_generic w draw) := by
  constructor
  · unfold generatorCall
    split_ifs
    · exact generate_hw_ok env hwf next g
    · exact generate_sw_ok next g
  · exact stampVV_ok _ (fillGeneric_length w draw)

theorem c1_witness :
    versionVariantOK (generatorCall sampleEnv sampleNext sampleGen).1 :=
  (c1_version_variant_bits sampleEnv (fun _ hl => hl) sampleNext sampleGen 8
    (fun _ => 0)).1

/-- C3: a hardware draw pair is treated as failed exactly when both 64-bit
words are zero; a supported, non-all-zero RDRAND pair is used first; if the
RDRAND pair is all-zero or RDRAND is unsupported, a supported, non-all-zero
RDSEED pair is used; if every attempted hardware pair is all-zero (or no
source is supported), the call falls back to the software path; and a call
never fails observably — it always yields a 16-byte value. -/
theorem c3_hw_fallback_chain (env : HwEnv) {σ : Type} (next : σ → Nat × σ)
    (g : GenState σ) :
    (∀ p : Nat × Nat, pairFailed p ↔ p = (0, 0)) ∧
    (env.rdrandSupported = true → ¬ pairFailed env.rdrandPair →
      generate_hw env next g
        = (stampVV (mixHw env (pairBytes env.rdrandPair)), g)) ∧
    ((env.rdrandSupported = false ∨ pairFailed env.rdrandPair) →
      env.rdseedSupported = true → ¬ pairFailed env.rdseedPair →
      generate_hw env next g
        = (stampVV (mixHw env (pairBytes env.rdseedPair)), g)) ∧
    ((env.rdrandSupported = false ∨ pairFailed env.rdrandPair) →
      (env.rdseedSupported = false ∨ pairFailed env.rdseedPair) →
      generate_hw env next g = generate_sw next g) ∧
    (hwEnvWF env → (generate_hw env next g).1.length = 16) := by
  refine ⟨?_, ?_, ?_, ?_, ?_⟩
  · intro p
    constructor
    · rintro ⟨h1, h2⟩
      exact Prod.ext h1 h2
    · rintro rfl
      exact ⟨rfl, rfl⟩
  · intro hsup hok
    unfold generate_hw hwRawDraw
    rw [if_pos ⟨hsup, hok⟩]
  · intro hfail hsup hok
    unfold generate_hw hwRawDraw
    have hneg : ¬ (env.rdrandSupported = true ∧ ¬ pairFailed env.rdrandPair) := by
      rcases hfail with hf | hf
      · intro hc; rw [hf] at hc; exact Bool.false_ne_true hc.1
      · intro hc; exact hc.2 hf
    rw [if_neg hneg, if_pos ⟨hsup, hok⟩]
  · intro hfail1 hfail2
    unfold generate_hw hwRawDraw
    have hneg1 : ¬ (env.rdrandSupported = true ∧ ¬ pairFailed env.rdrandPair) := by
      rcases hfail1 with hf | hf
      · intro hc; rw [hf] at hc; exact Bool.false_ne_true hc.1
      · intro hc; exact hc.2 hf
    have hneg2 : ¬ (env.rdseedSupported = true ∧ ¬ pairFailed env.rdseedPair) := by
      rcases hfail2 with hf | hf
      · intro hc; rw [hf] at hc; exact Bool.false_ne_true hc.1
      · intro hc; exact hc.2 hf
    rw [if_neg hneg1, if_neg hneg2]
  · intro hwf
    unfold generate_hw
    cases hr : hwRawDraw env with
    | some raw =>
      exact (stampVV_getD _
        (mixHw_length env hwf raw (hwRawDraw_length env raw hr))).2.2
    | none => exact generate_sw_fst_length next g

theorem c3_witness :
    generate_hw sampleEnv sampleNext sampleGen
      = (stampVV (mixHw sampleEnv (pairBytes sampleEnv.rdrandPair)),
        sampleGen) :=
  (c3_hw_fallback_chain sampleEnv sampleNext sampleGen).2.1 rfl (by decide)

/-- C9: one `operator()` call never changes the cached `use_hw_rng_`
decision; a call that completes on the hardware path returns the generator
state completely unchanged; and a call that takes the software path (by
dispatch or by hardware-exhaustion fallback) changes nothing but the engine
state, which it advances by exactly one application of the fixed per-call
transition `swAdvance`. -/
theorem c9_state_frame (env : HwEnv) {σ : Type} (next : σ → Nat × σ)
    (g : GenState σ) :
    ((generatorCall env next g).2.useHw = g.useHw) ∧
    (g.useHw = true → (hwRawDraw env).isSome = true →
      (generatorCall env next g).2 = g) ∧
    (g.useHw = true → hwRawDraw env = none →
      (generatorCall env next g).2 = { g with rng := swAdvance next g.rng }) ∧
    (g.useHw = false →
      (generatorCall env next g).2 = { g with rng := swAdvance next g.rng }) := by
  have hsw : (generate_sw next g).2 = { g with rng := swAdvance next g.rng } := rfl
  refine ⟨?_, ?_, ?_, ?_⟩
  · unfold generatorCall
    split_ifs
    · unfold generate_hw
      cases hr : hwRawDraw env with
      | some raw => rfl
      | none => rw [hsw]
    · rw [hsw]
  · intro hhw hsome
    unfold generatorCall
    rw [if_pos hhw]
    unfold generate_hw
    cases hr : hwRawDraw env with
    | some raw => rfl
    | none => rw [hr] at hsome; exact absurd hsome (by simp)
  · intro hhw hnone
    unfold generatorCall
    rw [if_pos hhw]
    unfold generate_hw
    rw [hnone]
    exact hsw
  · intro hsw2
    unfold generatorCall
    rw [if_neg (by rw [hsw2]; exact Bool.false_ne_true)]
    exact hsw

theorem c9_witness : (generatorCall sampleEnv sampleNext sampleGen).2 = sampleGen :=
  (c9_state_frame sampleEnv sampleNext sampleGen).2.1 rfl (by decide)

/-- A fill loop whose index has already reached 16 stops at once. -/
theorem swFillIdx_stop (w i fuel : Nat) (h : 16 ≤ i) :
    swFillIdx w i fuel = some [] := by
  cases fuel with
  | zero => simp [swFillIdx, h]
  | succ f => simp [swFillIdx, Nat.not_lt.mpr h]

/-- With positive width, fuel covering the remaining distance suffices. -/
theorem swFillIdx_isSome (w : Nat) (hw : 1 ≤ w) :
    ∀ fuel i, 16 ≤ i + fuel → (swFillIdx w i fuel).isSome = true := by
  intro fuel
  induction fuel with
  | zero =>
    intro i h
    simp only [Nat.add_zero] at h
    rw [swFillIdx_stop w i 0 h]
    rfl
  | succ f ih =>
    intro i h
    by_cases hi : i < 16
    · have := ih (i + w) (by omega)
      simp only [swFillIdx, if_pos hi]
      cases hx : swFillIdx w (i + w) f with
      | some l => rfl
      | none => rw [hx] at this; exact absurd this (by simp)
    · rw [swFillIdx_stop w i (f + 1) (Nat.not_lt.mp hi)]
      rfl

/-- C7: a conforming C++ entropy engine cannot declare a zero-width result
type (`sizeof` of any object type is at least one byte), so the
misconfiguration is rejected when the generator type is set up; for every
admissible width the software fill loop terminates (fuel 16 is enough for
its index to pass 16), while width zero would make the loop run forever
(no amount of fuel reaches the exit condition). -/
theorem c7_zero_width_guard :
    (∀ w, engineWidthOK w → (swFillIdx w 0 16).isSome = true) ∧
    (¬ engineWidthOK 0) ∧
    (∀ fuel, swFillIdx 0 0 fuel = none) := by
  refine ⟨?_, by unfold engineWidthOK; omega, ?_⟩
  · intro w hw
    exact swFillIdx_isSome w hw 16 0 (by omega)
  · intro fuel
    induction fuel with
    | zero => simp [swFillIdx]
    | succ f ih => simpa [swFillIdx] using ih

theorem c7_witness : (swFillIdx 3 0 16).isSome = true :=
  c7_zero_width_guard.1 3 (by unfold engineWidthOK; omega)

/-- For widths of 17 or more bytes the loop body runs exactly once. -/
theorem swOffsetList_large (w : Nat) (h : 17 ≤ w) : swOffsetList w = [0] := by
  unfold swOffsetList
  have h1 : swFillIdx w 0 16 = (swFillIdx w (0 + w) 15).map (fun l => 0 :: l) := by
    simp [swFillIdx]
  rw [h1, swFillIdx_stop w (0 + w) 15 (by omega)]
  rfl

/-- C2 counterexample: for an engine whose result width is 3 bytes, the
final loop iteration at offset 15 copies its full 3-byte draw, writing the
byte positions 16 and 17 — past the end of the 16-byte buffer, with no
truncation. -/
theorem c2_no_truncation_cex :
    16 ∈ swWritePositions 3 ∧ 17 ∈ swWritePositions 3 := by decide

/-- C2 (amended): for a result width of exactly 8 bytes the dedicated
branch makes exactly two draws; for any other width `w ≥ 1` that divides
16, the loop draws once per offset `0, w, 2w, …` (16 / w draws in total)
and its byte copies cover the 16-byte buffer exactly, staying in bounds;
but for a width that does not divide 16 the final draw is copied in full,
not truncated, so some write lands at a position ≥ 16, past the end of the
buffer. -/
theorem c2_fill_loop (w : Nat) (h1 : 1 ≤ w) :
    swDrawCount 8 = 2 ∧
    (w ∣ 16 →
      swOffsetList w = (List.range (16 / w)).map (fun k => k * w) ∧
      swWritePositions w = List.range 16 ∧
      swDrawCount w = if w = 8 then 2 else 16 / w) ∧
    (¬ w ∣ 16 → 16 ∈ swWritePositions w) := by
  refine ⟨by decide, ?_, ?_⟩
  · intro hdvd
    have hle : w < 17 := by
      have := Nat.le_of_dvd (by omega) hdvd
      omega
    have key : ∀ v, v < 17 → 1 ≤ v → v ∣ 16 →
        (swOffsetList v = (List.range (16 / v)).map (fun k => k * v) ∧
         swWritePositions v = List.range 16 ∧
         swDrawCount v = if v = 8 then 2 else 16 / v) := by decide
    exact key w hle h1 hdvd
  · intro hnd
    by_cases hle : w < 17
    · have key2 : ∀ v, v < 17 → 1 ≤ v → ¬ v ∣ 16 →
          16 ∈ swWritePositions v := by decide
      exact key2 w hle h1 hnd
    · have hoff := swOffsetList_large w (by omega)
      unfold swWritePositions
      rw [hoff]
      simp only [List.flatMap_cons, List.flatMap_nil, List.append_nil,
        List.mem_map, List.mem_range]
      exact ⟨16, by omega, by omega⟩

theorem c2_witness : swWritePositions 4 = List.range 16 :=
  ((c2_fill_loop 4 (by omega)).2.1 (by decide)).2.1

theorem lex_cons_cons_elim {x y : Nat} {xs ys : List Nat}
    (h : List.Lex (· < ·) (x :: xs) (y :: ys)) :
    x < y ∨ (x = y ∧ List.Lex (· < ·) xs ys) := by
  cases h with
  | rel h2 => exact Or.inl h2
  | cons h2 => exact Or.inr ⟨rfl, h2⟩

/-- The three-way comparison agrees with byte-wise equality and with
lexicographic order, in both directions. -/
theorem uuidCmp_spec : ∀ a b : List Nat,
    (uuidCmp a b = .eq ↔ a = b) ∧
    (uuidCmp a b = .lt ↔ List.Lex (· < ·) a b) ∧
    (uuidCmp a b = .gt ↔ List.Lex (· < ·) b a) := by
  intro a
  induction a with
  | nil =>
    intro b
    cases b with
    | nil =>
      refine ⟨by simp [uuidCmp], ?_, ?_⟩ <;>
        · simp only [uuidCmp]
          constructor
          · intro hc; exact absurd hc (by simp)
          · intro hc; exact absurd hc (List.Lex.not_nil_right _ _)
    | cons y ys =>
      refine ⟨by simp [uuidCmp], ?_, ?_⟩
      · simp only [uuidCmp]
        exact ⟨fun _ => List.Lex.nil, fun _ => trivial⟩
      · simp only [uuidCmp]
        constructor
        · intro hc; exact absurd hc (by simp)
        · intro hc; exact absurd hc (List.Lex.not_nil_right _ _)
  | cons x xs ih =>
    intro b
    cases b with
    | nil =>
      refine ⟨by simp [uuidCmp], ?_, ?_⟩
      · simp only [uuidCmp]
        constructor
        · intro hc; exact absurd hc (by simp)
        · intro hc; exact absurd hc (List.Lex.not_nil_right _ _)
      · simp only [uuidCmp]
        exact ⟨fun _ => List.Lex.nil, fun _ => trivial⟩
    | cons y ys =>
      rcases Nat.lt_trichotomy x y with hxy | hxy | hxy
      · have hc : uuidCmp (x :: xs) (y :: ys) = .lt := by
          simp [uuidCmp, hxy]
        refine ⟨?_, ?_, ?_⟩ <;> rw [hc]
        · constructor
          · intro h2; exact absurd h2 (by simp)
          · intro h2; injection h2 with h3 h4; omega
        · exact ⟨fun _ => List.Lex.rel hxy, fun _ => rfl⟩
        · constructor
          · intro h2; exact absurd h2 (by simp)
          · intro h2
            rcases lex_cons_cons_elim h2 with h3 | ⟨h3, h4⟩ <;> omega
      · subst hxy
        have hc : uuidCmp (x :: xs) (x :: ys) = uuidCmp xs ys := by
          simp [uuidCmp]
        obtain ⟨ih1, ih2, ih3⟩ := ih ys
        refine ⟨?_, ?_, ?_⟩ <;> rw [hc]
        · rw [ih1]
          constructor
          · intro h2; rw [h2]
          · intro h2; injection h2
        · rw [ih2]
          exact List.Lex.cons_iff.symm
        · rw [ih3]
          exact List.Lex.cons_iff.symm
      · have h1 : ¬ x < y := by omega
        have hc : uuidCmp (x :: xs) (y :: ys) = .gt := by
          simp [uuidCmp, h1, hxy]
        refine ⟨?_, ?_, ?_⟩ <;> rw [hc]
        · constructor
          · intro h2; exact absurd h2 (by simp)
          · intro h2; injection h2 with h3 h4; omega
        · constructor
          · intro h2; exact absurd h2 (by simp)
          · intro h2
            rcases lex_cons_cons_elim h2 with h3 | ⟨h3, h4⟩ <;> omega
        · exact ⟨fun _ => List.Lex.rel hxy, fun _ => rfl⟩

/-- C5: the comparison the spec prescribes for UUID values — which the
source's deleted defaulted `operator<=>` fails to provide (see `uuidCmp`) —
is indeed a total order: for any two byte arrays it yields exactly one of
less / equal / greater; "equal" holds exactly when the bytes are pairwise
equal, and "less" / "greater" coincide with unsigned lexicographic
comparison of the byte sequences in the two directions. -/
theorem c5_total_order (a b : List Nat) :
    (uuidCmp a b = .eq ↔ a = b) ∧
    (uuidCmp a b = .lt ↔ List.Lex (· < ·) a b) ∧
    (uuidCmp a b = .gt ↔ List.Lex (· < ·) b a) ∧
    ((uuidCmp a b = .lt ∧ uuidCmp a b ≠ .eq ∧ uuidCmp a b ≠ .gt) ∨
     (uuidCmp a b = .eq ∧ uuidCmp a b ≠ .lt ∧ uuidCmp a b ≠ .gt) ∨
     (uuidCmp a b = .gt ∧ uuidCmp a b ≠ .lt ∧ uuidCmp a b ≠ .eq)) := by
  obtain ⟨h1, h2, h3⟩ := uuidCmp_spec a b
  refine ⟨h1, h2, h3, ?_⟩
  cases hc : uuidCmp a b with
  | lt => exact Or.inl ⟨rfl, by simp, by simp⟩
  | eq => exact Or.inr (Or.inl ⟨rfl, by simp, by simp⟩)
  | gt => exact Or.inr (Or.inr ⟨rfl, by simp, by simp⟩)

theorem copySpan_id : ∀ b : List Nat, copySpan b = b := by
  intro b
  induction b with
  | nil => rfl
  | cons x xs ih => simp [copySpan, ih]

/-- C8: constructing a UUID value from a 16-byte buffer copies the bytes
verbatim and performs no validation: reading the raw bytes back yields the
input, even for a buffer (here sixteen `0xFF` bytes) that violates the
version/variant bit layout. -/
theorem c8_verbatim_construction :
    (∀ b : List Nat, (uuidOfSpan b).bytes = b) ∧
    (uuidOfSpan (List.replicate 16 255)).bytes = List.replicate 16 255 ∧
    ¬ versionVariantOK (List.replicate 16 255) := by
  refine ⟨fun b => copySpan_id b, copySpan_id _, by decide⟩

/-- C10: the default-constructed UUID value has all 16 bytes zero, renders
as the nil-UUID string, and does not satisfy the version/variant layout
that generated values carry. -/
theorem c10_default_uuid_zero :
    defaultUuid.bytes = List.replicate 16 0 ∧
    uuidStr defaultUuid.bytes
      = String.toList "00000000-0000-0000-0000-000000000000" ∧
    ¬ versionVariantOK defaultUuid.bytes := by
  exact ⟨rfl, by decide, by decide⟩

theorem hexChar_mem : ∀ n, n < 16 → hexChar n ∈ hexDigits := by decide

theorem hexChar_ne_dash (n : Nat) : hexChar n ≠ '-' := by
  by_cases h : n < 16
  · exact (by decide : ∀ m, m < 16 → hexChar m ≠ '-') n h
  · unfold hexChar
    rw [List.getD_eq_default]
    · decide
    · have h16 : hexDigits.length = 16 := by decide
      omega

theorem shiftRight4_lt (x : Nat) (h : x < 256) : x >>> 4 < 16 := by
  rw [Nat.shiftRight_eq_div_pow]
  omega

/-- Every character the rendering loop emits is a hyphen or a lowercase
hex digit. -/
theorem strAux_chars : ∀ (bs : List Nat) (j : Nat), (∀ x ∈ bs, x < 256) →
    ∀ c ∈ strAux bs j, c = '-' ∨ c ∈ hexDigits := by
  intro bs
  induction bs with
  | nil =>
    intro j h c hc
    simp [strAux] at hc
  | cons x xs ih =>
    intro j h c hc
    simp only [strAux] at hc
    rcases List.mem_append.mp hc with hc1 | hc2
    · split_ifs at hc1 with hj
      · simp only [List.mem_singleton] at hc1
        exact Or.inl hc1
      · simp at hc1
    · simp only [List.mem_cons] at hc2
      rcases hc2 with rfl | rfl | hc3
      · exact Or.inr (hexChar_mem _ (shiftRight4_lt x (h x (by simp))))
      · exact Or.inr (hexChar_mem _
          (Nat.lt_of_le_of_lt Nat.and_le_right (by norm_num)))
      · exact ih (j + 1) (fun y hy => h y (by simp [hy])) c hc3

/-- C4: for every 16-byte value the rendered string has length exactly 36,
has the character '-' exactly at indices 8, 13, 18 and 23, every other
character is a lowercase hexadecimal digit, and the rendering is the two
hex digits of each of the 16 bytes in order with the digit pairs grouped
8-4-4-4-12 between the hyphens. -/
theorem c4_string_rendering (b : List Nat) (hlen : b.length = 16)
    (hb : ∀ x ∈ b, x < 256) :
    (uuidStr b).length = 36 ∧
    (∀ i, i < 36 →
      (((uuidStr b).getD i ' ') = '-' ↔ (i = 8 ∨ i = 13 ∨ i = 18 ∨ i = 23))) ∧
    (∀ i, i < 36 → ¬(i = 8 ∨ i = 13 ∨ i = 18 ∨ i = 23) →
      ((uuidStr b).getD i ' ') ∈ hexDigits) ∧
    uuidStr b =
      hexPair (b.getD 0 0) ++ hexPair (b.getD 1 0) ++ hexPair (b.getD 2 0) ++
      hexPair (b.getD 3 0) ++ ['-'] ++
      hexPair (b.getD 4 0) ++ hexPair (b.getD 5 0) ++ ['-'] ++
      hexPair (b.getD 6 0) ++ hexPair (b.getD 7 0) ++ ['-'] ++
      hexPair (b.getD 8 0) ++ hexPair (b.getD 9 0) ++ ['-'] ++
      hexPair (b.getD 10 0) ++ hexPair (b.getD 11 0) ++ hexPair (b.getD 12 0) ++
      hexPair (b.getD 13 0) ++ hexPair (b.getD 14 0) ++ hexPair (b.getD 15 0) := by
  obtain ⟨a0, a1, a2, a3, a4, a5, a6, a7, a8, a9, a10, a11, a12, a13, a14,
    a15, rfl⟩ := exists16 b hlen
  have hred : uuidStr [a0, a1, a2, a3, a4, a5, a6, a7, a8, a9, a10, a11,
      a12, a13, a14, a15] =
      [hexChar (a0 >>> 4), hexChar (a0 &&& 15),
       hexChar (a1 >>> 4), hexChar (a1 &&& 15),
       hexChar (a2 >>> 4), hexChar (a2 &&& 15),
       hexChar (a3 >>> 4), hexChar (a3 &&& 15), '-',
       hexChar (a4 >>> 4), hexChar (a4 &&& 15),
       hexChar (a5 >>> 4), hexChar (a5 &&& 15), '-',
       hexChar (a6 >>> 4), hexChar (a6 &&& 15),
       hexChar (a7 >>> 4), hexChar (a7 &&& 15), '-',
       hexChar (a8 >>> 4), hexChar (a8 &&& 15),
       hexChar (a9 >>> 4), hexChar (a9 &&& 15), '-',
       hexChar (a10 >>> 4), hexChar (a10 &&& 15),
       hexChar (a11 >>> 4), hexChar (a11 &&& 15),
       hexChar (a12 >>> 4), hexChar (a12 &&& 15),
       hexChar (a13 >>> 4), hexChar (a13 &&& 15),
       hexChar (a14 >>> 4), hexChar (a14 &&& 15),
       hexChar (a15 >>> 4), hexChar (a15 &&& 15)] := by
    simp [uuidStr, strAux]
  have hlen36 : (uuidStr [a0, a1, a2, a3, a4, a5, a6, a7, a8, a9, a10, a11,
      a12, a13, a14, a15]).length = 36 := by
    rw [hred]
    rfl
  have h2 : ∀ i, i < 36 →
      (((uuidStr [a0, a1, a2, a3, a4, a5, a6, a7, a8, a9, a10, a11, a12,
        a13, a14, a15]).getD i ' ') = '-' ↔
        (i = 8 ∨ i = 13 ∨ i = 18 ∨ i = 23)) := by
    intro i hi
    rw [hred]
    interval_cases i <;> simp [hexChar_ne_dash]
  refine ⟨hlen36, h2, ?_, ?_⟩
  · intro i hi hne
    have hmem : ((uuidStr [a0, a1, a2, a3, a4, a5, a6, a7, a8, a9, a10, a11,
        a12, a13, a14, a15]).getD i ' ')
        ∈ uuidStr [a0, a1, a2, a3, a4, a5, a6, a7, a8, a9, a10, a11, a12,
          a13, a14, a15] := by
      have hlt : i < (uuidStr [a0, a1, a2, a3, a4, a5, a6, a7, a8, a9, a10,
          a11, a12, a13, a14, a15]).length := by omega
      rw [List.getD_eq_getElem _ ' ' hlt]
      exact List.getElem_mem hlt
    rcases strAux_chars _ 0 hb _ hmem with hc | hc
    · exact absurd ((h2 i hi).mp hc) hne
    · exact hc
  · rw [hred]
    simp [hexPair]

theorem c4_witness : (uuidStr (List.replicate 16 0)).length = 36 :=
  (c4_string_rendering (List.replicate 16 0) (by simp) (by decide)).1

set_option maxRecDepth 1000000 in
/-- The embedded engine reproduces the well-known first output of
`std::mt19937_64` seeded with 42. -/
theorem mt19937_64_seed42_first :
    (mtNext (mtEngineInit 42)).1 = 13930160852258120406 := by decide

set_option maxRecDepth 1000000 in
/-- C6: two façade instances constructed with the same explicit seed and
with the hardware path disabled produce identical sequences of values,
call for call (the sequence is a pure function of the seed); with the
default engine and seed 42 the first two calls yield two distinct 16-byte
values, both satisfying the version/variant layout, reproducible across
runs. -/
theorem c6_seed_determinism :
    (∀ seed n, runGen noHwEnv mtNext (mtFacadeA seed) n
      = runGen noHwEnv mtNext (mtFacadeB seed) n) ∧
    (runGen noHwEnv mtNext (mtFacadeA 42) 2).length = 2 ∧
    (runGen noHwEnv mtNext (mtFacadeA 42) 2).getD 0 []
      ≠ (runGen noHwEnv mtNext (mtFacadeA 42) 2).getD 1 [] ∧
    versionVariantOK ((runGen noHwEnv mtNext (mtFacadeA 42) 2).getD 0 []) ∧
    versionVariantOK ((runGen noHwEnv mtNext (mtFacadeA 42) 2).getD 1 []) ∧
    ((runGen noHwEnv mtNext (mtFacadeA 42) 2).getD 0 []).length = 16 ∧
    ((runGen noHwEnv mtNext (mtFacadeA 42) 2).getD 1 []).length = 16 :=
  ⟨fun _ _ => rfl, by decide, by decide, by decide, by decide, by decide,
    by decide⟩

end Uuids
